import Mathlib

/-!
Verification of the mobile module/method invocation layer
(torch/csrc/jit/mobile/module.cpp): function registration and lookup
(CompilationUnit), recursive attribute-tree operations of Module
(train, is_training, parameters, named_parameters), method lookup,
and the instrumented call protocol of Method::run / Method::operator().

The object/attribute-tree system, the bytecode interpreter, the observer
and the symbolication table are external collaborators; they are embedded
as explicit data: an inductive value tree, a behaviour function for
Function::run, an event trace recording observer notifications and
debug-scope lifetime, and string-valued lookup functions for the debug
table. The compile-time gate SYMBOLICATE_MOBILE_DEBUG_HANDLE is carried
as an explicit boolean.
-/

set_option autoImplicit false

namespace MobileModule

/-- Dynamic value (the source's IValue), restricted to the variants the
invocation layer inspects: booleans, tensors (an id together with the
tensor's requires_grad flag), nested objects (a named, ordered slot list),
and an opaque "other" variant for everything else. -/
inductive IVal where
  | vB (b : Bool)
  | vTensor (tid : Nat) (requiresGrad : Bool)
  | vObj (slots : List (String × IVal))
  | vOther
deriving Repr

/-- Instance state of one object (c10::ivalue::Object fused with its type's
attribute names): the ordered, named attribute slots. -/
abbrev Obj := List (String × IVal)

/-- Tensor as stored by parameter collection: its id and its requires_grad
flag. -/
abbrev Tensor := Nat × Bool

/-- Source operation findAttributeSlot(name) of the object's type: index of
the first slot carrying the given attribute name, if any. -/
def findAttributeSlot (o : Obj) (name : String) : Option Nat :=
  o.findIdx? (fun s => s.1 == name)

/-- Source operation Object::getSlot(i). -/
def getSlot (o : Obj) (i : Nat) : IVal :=
  (o.getD i ("", IVal.vOther)).2

/-- Fatal, non-recoverable failures (TORCH_INTERNAL_ASSERT), as opposed to
the two catchable exception categories of Method::run. -/
inductive MobileErr where
  | fatalAssert (msg : String)
deriving Repr, DecidableEq

/-- Extraction IValue::toBool: fatal on a non-boolean tag. -/
def IVal.toBool : IVal → Except MobileErr Bool
  | .vB b => .ok b
  | _ => .error (.fatalAssert "expected Bool")

mutual

/-- Source function set_train_recurse(obj, flag): set the "training"
attribute of obj (fatal assertion when absent), then walk the updated slot
list, recursing into every object-valued slot. The C++ mutates the slot in
place before the loop; here the in-place setSlot is fused into the walk:
the slot at the found index is emitted as the boolean flag (and, holding a
boolean after the set, is not recursed into). -/
def set_train_recurse (slots : Obj) (flag : Bool) : Except MobileErr Obj :=
  match slots.findIdx? (fun s => s.1 == "training") with
  | none => .error (.fatalAssert "training attribute not found")
  | some i => set_train_slots slots flag i 0
termination_by (sizeOf slots, 1)
decreasing_by
  exact Prod.Lex.right _ (by omega)

/-- Slot walk of set_train_recurse: i is the index of the "training" slot
(already set to vB flag, hence never an object), j the current position. -/
def set_train_slots (slots : Obj) (flag : Bool) (i j : Nat) : Except MobileErr Obj :=
  match slots with
  | [] => .ok []
  | (nm, v) :: rest => do
    let hd ←
      if j = i then
        pure (nm, IVal.vB flag)
      else
        match v with
        | .vObj s => do pure (nm, IVal.vObj (← set_train_recurse s flag))
        | x => pure (nm, x)
    let tl ← set_train_slots rest flag i (j + 1)
    pure (hd :: tl)
termination_by (sizeOf slots, 0)
decreasing_by
  all_goals apply Prod.Lex.left
  all_goals simp
  all_goals omega

end

/-- Source function slot_params_recurse(obj, params): append every
tensor-valued slot, depth-first, to the accumulator; recurse into
object-valued slots. -/
def slot_params_recurse (obj : Obj) (params : List Tensor) : List Tensor :=
  match obj with
  | [] => params
  | (_, .vTensor tid rg) :: rest => slot_params_recurse rest (params ++ [(tid, rg)])
  | (_, .vObj s) :: rest => slot_params_recurse rest (slot_params_recurse s params)
  | _ :: rest => slot_params_recurse rest params
termination_by sizeOf obj
decreasing_by
  all_goals simp
  all_goals omega

/-- Insert-or-assign of std::map (operator[] followed by assignment): the
map is modelled as an association list; only its key-to-value mapping, not
its iteration order, is relied upon by the layer under verification. -/
def mapInsert (m : List (String × Tensor)) (k : String) (v : Tensor) :
    List (String × Tensor) :=
  match m with
  | [] => [(k, v)]
  | (k1, v1) :: rest =>
    if k1 == k then (k, v) :: rest else (k1, v1) :: mapInsert rest k v

/-- Dotted-name construction of slot_named_params_recurse: an empty parent
gives the bare attribute name, otherwise parent ++ "." ++ attribute name. -/
def dottedName (parent_name nm : String) : String :=
  (if parent_name.length == 0 then parent_name else parent_name ++ ".") ++ nm

/-- Source function slot_named_params_recurse(obj, params, parent_name):
for each slot, build the dotted name; a tensor slot with requires_grad set
is inserted into the map under that name, an object slot is recursed into
with the dotted name as the new parent, any other slot only advances the
walk. -/
def slot_named_params_recurse (obj : Obj) (params : List (String × Tensor))
    (parent_name : String) : List (String × Tensor) :=
  match obj with
  | [] => params
  | (nm, .vTensor tid rg) :: rest =>
    slot_named_params_recurse rest
      (if rg then mapInsert params (dottedName parent_name nm) (tid, rg)
       else params) parent_name
  | (nm, .vObj s) :: rest =>
    slot_named_params_recurse rest
      (slot_named_params_recurse s params (dottedName parent_name nm))
      parent_name
  | _ :: rest => slot_named_params_recurse rest params parent_name
termination_by sizeOf obj
decreasing_by
  all_goals simp
  all_goals omega

/-- Message of an exception, c10-style: Error::what() renders the message
followed by the accumulated context. -/
structure C10Error where
  msg : String
  context : List String
deriving Repr, DecidableEq

/-- Backend-runtime exception (c10::BackendRuntimeException): a c10::Error
additionally carrying an accumulable, ordered list of debug handles
(pushDebugHandle appends). -/
structure BackendRuntimeException where
  msg : String
  context : List String
  debugHandles : List Int
deriving Repr, DecidableEq

/-- Rendering Error::what(): original message followed by the accumulated
context strings. -/
def C10Error.what (e : C10Error) : String :=
  e.msg ++ String.join e.context

/-- Rendering what() of a backend-runtime exception. -/
def BackendRuntimeException.what (e : BackendRuntimeException) : String :=
  e.msg ++ String.join e.context

/-- Outcome of the external Function::run on a stack: normal return with
the final stack, or one of the two catchable exception categories together
with the stack contents at the moment the exception escapes (the
interpreter mutates the stack in place). -/
inductive FuncResult where
  | ok (stack : List IVal)
  | backendExc (e : BackendRuntimeException) (stack : List IVal)
  | c10Error (e : C10Error) (stack : List IVal)

/-- External symbolication table (MobileDebugTable): best-effort lookup of
debug handles against the module's top-level type name; both overloads of
getSourceDebugString (single handle, handle list) and
getModuleHierarchyInfo. -/
structure DebugTable where
  sourceDebugStringMulti : List Int → String → String
  sourceDebugString : Int → String → String
  moduleHierarchyInfo : Int → String → String

/-- Bytecode function: name, qualified name, exception debug handle,
per-program-counter debug handles, and its executable behaviour. -/
structure Function where
  name : String
  qualname : String
  exceptionDebugHandle : Int
  debugHandle : Nat → Int
  body : List IVal → FuncResult

/-- Owner of the functions of one loaded program; methods holds them in
registration order. -/
structure CompilationUnit where
  methods : List Function

/-- Source function CompilationUnit::register_function: append the function
to the unit. No duplicate-name validation is performed. -/
def CompilationUnit.register_function (cu : CompilationUnit) (fn : Function) :
    CompilationUnit :=
  { cu with methods := cu.methods ++ [fn] }

/-- Source function CompilationUnit::find_function(qn): linear scan
returning the first function whose qualified name equals qn, none
otherwise. Lookup is pure: the unit is not mutated. -/
def CompilationUnit.find_function (cu : CompilationUnit) (qn : String) :
    Option Function :=
  cu.methods.find? (fun fn => fn.qualname == qn)

/-- Module: the root object's slots, the root object's type name (the C++
reads it from the object's type; getTopModuleTypeName), the compilation
unit, the metadata mapping, and the symbolication table. -/
structure Module where
  object : Obj
  typeName : String
  cu : CompilationUnit
  metadata : List (String × String)
  debugTable : DebugTable

/-- Method: a bound (module, function) pair. -/
structure Method where
  owner : Module
  function : Function

/-- Source function Module::find_method(basename): the first function in
the compilation unit whose simple name equals basename, bound to this
module; none when absent. -/
def Module.find_method (m : Module) (basename : String) : Option Method :=
  (m.cu.methods.find? (fun fn => fn.name == basename)).map
    (fun fn => Method.mk m fn)

/-- Source function Module::get_method(name): the bound method, or an
AT_ERROR (a thrown c10::Error) naming the method when absent. -/
def Module.get_method (m : Module) (name : String) : Except C10Error Method :=
  match m.find_method name with
  | some meth => .ok meth
  | none => .error ⟨"Method " ++ name ++ " is not defined.", []⟩

/-- Source function Module::get_methods: every function of the compilation
unit, in registration order, bound to this module. -/
def Module.get_methods (m : Module) : List Method :=
  m.cu.methods.map (fun fn => Method.mk m fn)

/-- Source function Module::train(on): delegate to set_train_recurse on the
root object. The C++ mutates the shared object graph; here the updated
module is returned. -/
def Module.train (m : Module) (flag : Bool) : Except MobileErr Module :=
  (set_train_recurse m.object flag).map (fun o => { m with object := o })

/-- Source function Module::is_training: the root object's "training"
attribute as a boolean, or true when the attribute is absent. -/
def Module.is_training (m : Module) : Except MobileErr Bool :=
  match findAttributeSlot m.object "training" with
  | some i => (getSlot m.object i).toBool
  | none => .ok true

/-- Source function Module::parameters: every tensor-valued slot collected
depth-first over the object tree. -/
def Module.parameters (m : Module) : List Tensor :=
  slot_params_recurse m.object []

/-- Source function Module::named_parameters: dotted-name map of the
gradient-tracking tensor-valued slots (requires_grad is the filter the
source uses in place of an unavailable parameter flag). -/
def Module.named_parameters (m : Module) : List (String × Tensor) :=
  slot_named_params_recurse m.object [] ""

/-- Source function getModuleHierarchy(debug_handle); sym is the
compile-time symbolication gate, without which the empty string is
returned. -/
def Module.getModuleHierarchy (sym : Bool) (m : Module) (debug_handle : Int) :
    String :=
  if sym then m.debugTable.moduleHierarchyInfo debug_handle m.typeName else ""

/-- Source function getCallStack(debug_handle). -/
def Module.getCallStack (sym : Bool) (m : Module) (debug_handle : Int) :
    String :=
  if sym then m.debugTable.sourceDebugString debug_handle m.typeName else ""

/-- Modelled from the spec: the dereference of the c10::optional Method that
Module::get_forward_method_debug_info performs on the result of
find_method("forward"). The behaviour of dereferencing an empty
c10::optional is decided by c10/util/Optional.h, which is not among the
sources under review; the spec states that get_forward_method_debug_info
"fails if no method named forward exists", modelled as a fatal,
non-recoverable failure. -/
def derefOptionalMethod : Option Method → Except MobileErr Method
  | some meth => .ok meth
  | none => .error (.fatalAssert "dereference of empty optional")

/-- Source function Module::get_forward_method_debug_info(pc): convert the
program counter to a debug handle via the "forward" method, then
symbolicate it (empty string when the symbolication gate sym is off). -/
def Module.get_forward_method_debug_info (sym : Bool) (m : Module) (pc : Nat) :
    Except MobileErr String := do
  let meth ← derefOptionalMethod (m.find_method "forward")
  let debug_handle := meth.function.debugHandle pc
  if sym then
    pure (m.debugTable.moduleHierarchyInfo debug_handle m.typeName)
  else
    pure ""

/-- Observable steps of one Method::run invocation, in order of occurrence:
observer notifications (onEnterRunMethod, onExitRunMethod,
onFailRunMethod), installation and release of the DebugInfoGuard, and the
hand-off to Function::run. -/
inductive Event where
  | enterNotify (instanceKey : Nat) (methodName : String)
  | debugInstall (modelName methodName : String)
  | execStart
  | exitNotify (instanceKey : Nat)
  | failNotify (instanceKey : Nat) (msg : String)
  | debugRelease
deriving Repr, DecidableEq

/-- Recogniser for the enter notification. -/
def Event.isEnter : Event → Bool
  | .enterNotify _ _ => true
  | _ => false

/-- Recogniser for the debug-scope installation. -/
def Event.isDebugInstall : Event → Bool
  | .debugInstall _ _ => true
  | _ => false

/-- Recogniser for the hand-off to Function::run. -/
def Event.isExecStart : Event → Bool
  | .execStart => true
  | _ => false

/-- Recogniser for the observer exit notification. -/
def Event.isExitNotify : Event → Bool
  | .exitNotify _ => true
  | _ => false

/-- Recogniser for the observer fail notification. -/
def Event.isFailNotify : Event → Bool
  | .failNotify _ _ => true
  | _ => false

/-- Recogniser for the debug-scope release. -/
def Event.isDebugRelease : Event → Bool
  | .debugRelease => true
  | _ => false

/-- Process-wide configuration of one run: whether
torch::observerConfig().getModuleObserver() yields an observer, and whether
SYMBOLICATE_MOBILE_DEBUG_HANDLE is compiled in. -/
structure RunCfg where
  observerPresent : Bool
  symbolicate : Bool
deriving Repr, DecidableEq

/-- Exception escaping Method::run: one of the two catchable categories. -/
inductive RunExc where
  | backend (e : BackendRuntimeException)
  | c10 (e : C10Error)
deriving Repr, DecidableEq

/-- Result of one Method::run invocation: the ordered event trace, the
normal-or-exceptional outcome, and the final contents of the
caller-supplied stack. -/
structure RunOutcome where
  trace : List Event
  result : Except RunExc Unit
  stack : List IVal
deriving Repr

/-- Root object of the owning module as the implicit self argument
(owner_->_ivalue()). -/
def Module.selfObj (m : Module) : IVal :=
  IVal.vObj m.object

/-- Backend-exception augmentation of the catch block of Method::run: under
the symbolication gate, push the function's exception debug handle onto the
exception's handle list, then attach the symbolication of all accumulated
handles as additional context; without the gate the exception is untouched. -/
def backendAugment (sym : Bool) (meth : Method) (e : BackendRuntimeException) :
    BackendRuntimeException :=
  if sym then
    let e1 := { e with
      debugHandles := e.debugHandles ++ [meth.function.exceptionDebugHandle] }
    { e1 with
      context := e1.context ++
        [meth.owner.debugTable.sourceDebugStringMulti e1.debugHandles
          meth.owner.typeName] }
  else e

/-- Generic-error augmentation of the second catch block of Method::run:
under the symbolication gate, attach the symbolication of this function's
single exception debug handle as additional context. -/
def c10Augment (sym : Bool) (meth : Method) (e : C10Error) : C10Error :=
  if sym then
    { e with
      context := e.context ++
        [meth.owner.debugTable.sourceDebugString
          meth.function.exceptionDebugHandle meth.owner.typeName] }
  else e

/-- Deferred failure guard of Method::run (c10::make_scope_exit), fired on
any exit path on which it was not released: without an observer it does
nothing; otherwise, under the symbolication gate it best-effort fills an
empty error message from the function's exception debug handle, then fires
onFailRunMethod with the message, or a fixed "Unknown exception"
placeholder when the message is still empty. -/
def failureGuardEvents (cfg : RunCfg) (meth : Method) (instanceKey : Nat)
    (error_message : String) : List Event :=
  if cfg.observerPresent then
    let msg :=
      if cfg.symbolicate && error_message.isEmpty then
        meth.owner.debugTable.sourceDebugString
          meth.function.exceptionDebugHandle meth.owner.typeName
      else error_message
    [.failNotify instanceKey (if msg.isEmpty then "Unknown exception" else msg)]
  else []

/-- Source function Method::run(stack), as the sequence of observable steps
it performs. instanceKey stands for the pseudo-random per-call key
(std::rand), supplied as a parameter. The copied metadata is read for
"model_name" with the default-constructing operator[] of
std::unordered_map (the surrounding comment's auto-fill from the module
name is never performed). Observer notifications fire only when an
observer is present. On the success path onExitRunMethod fires and the
failure guard is released; on either exception path the exception is
augmented, its message recorded, the same exception rethrown, and during
unwind the failure guard fires and then the DebugInfoGuard (installed
after the enter notification, before execution) is released. The
DebugInfoGuard release is the last step on every path, because the guard
object is declared before the failure guard and is therefore destroyed
after it. -/
def Method.run (cfg : RunCfg) (meth : Method) (instanceKey : Nat)
    (stack : List IVal) : RunOutcome :=
  let copied_metadata := meth.owner.metadata
  let enterEvents : List Event :=
    if cfg.observerPresent then [.enterNotify instanceKey meth.function.name]
    else []
  let modelName := (copied_metadata.lookup "model_name").getD ""
  let installEvent : Event := .debugInstall modelName meth.function.name
  let stack1 := meth.owner.selfObj :: stack
  match meth.function.body stack1 with
  | .ok stack2 =>
    let exitEvents : List Event :=
      if cfg.observerPresent then [.exitNotify instanceKey] else []
    { trace := enterEvents ++ [installEvent, .execStart] ++ exitEvents ++
        [.debugRelease]
      result := .ok ()
      stack := stack2 }
  | .backendExc e stack2 =>
    let e1 := backendAugment cfg.symbolicate meth e
    let error_message := e1.what
    { trace := enterEvents ++ [installEvent, .execStart] ++
        failureGuardEvents cfg meth instanceKey error_message ++ [.debugRelease]
      result := .error (.backend e1)
      stack := stack2 }
  | .c10Error e stack2 =>
    let e1 := c10Augment cfg.symbolicate meth e
    let error_message := e1.what
    { trace := enterEvents ++ [installEvent, .execStart] ++
        failureGuardEvents cfg meth instanceKey error_message ++ [.debugRelease]
      result := .error (.c10 e1)
      stack := stack2 }

/-- Errors escaping Method::operator(): a propagated catchable exception
from run, or the fatal TORCH_INTERNAL_ASSERT on an empty post-call stack. -/
inductive CallErr where
  | exc (e : RunExc)
  | fatalAssert (msg : String)
deriving Repr, DecidableEq

/-- Source function Method::operator()(stack): run the instrumented
protocol, fatally assert that the stack is non-empty, and return its front
element. -/
def Method.call (cfg : RunCfg) (meth : Method) (instanceKey : Nat)
    (stack : List IVal) : Except CallErr IVal :=
  let out := meth.run cfg instanceKey stack
  match out.result with
  | .error e => .error (.exc e)
  | .ok _ =>
    match out.stack with
    | [] => .error (.fatalAssert "stack is not empty INTERNAL ASSERT FAILED")
    | v :: _ => .ok v

mutual

/-- Claim-side predicate: every node of the object tree (the root, and
every object transitively reachable through any object-valued slot,
including one stored under the "training" attribute itself) carries a
"training" attribute. -/
def hasTrainingAll (o : Obj) : Bool :=
  (o.findIdx? (fun s => s.1 == "training")).isSome && hasTrainingAllSlots o
termination_by (sizeOf o, 1)
decreasing_by
  exact Prod.Lex.right _ (by omega)

/-- Slot walk of hasTrainingAll. -/
def hasTrainingAllSlots (slots : List (String × IVal)) : Bool :=
  match slots with
  | [] => true
  | (_, .vObj s) :: rest => hasTrainingAll s && hasTrainingAllSlots rest
  | _ :: rest => hasTrainingAllSlots rest
termination_by (sizeOf slots, 0)
decreasing_by
  all_goals apply Prod.Lex.left
  all_goals simp
  all_goals omega

end

mutual

/-- Claim-side predicate: the "training" slot of the root and of every
transitively reachable object-valued slot holds the boolean flag. -/
def trainingSetAll (o : Obj) (flag : Bool) : Bool :=
  (match o.findIdx? (fun s => s.1 == "training") with
   | some i =>
     match getSlot o i with
     | .vB b => b == flag
     | _ => false
   | none => false) && trainingSetAllSlots o flag
termination_by (sizeOf o, 1)
decreasing_by
  exact Prod.Lex.right _ (by omega)

/-- Slot walk of trainingSetAll. -/
def trainingSetAllSlots (slots : List (String × IVal)) (flag : Bool) : Bool :=
  match slots with
  | [] => true
  | (_, .vObj s) :: rest => trainingSetAll s flag && trainingSetAllSlots rest flag
  | _ :: rest => trainingSetAllSlots rest flag
termination_by (sizeOf slots, 0)
decreasing_by
  all_goals apply Prod.Lex.left
  all_goals simp
  all_goals omega

end

mutual

/-- Claim-side predicate mirroring exactly the nodes set_train_recurse
visits: the root carries a "training" attribute, and every object-valued
slot other than the one at the found "training" index (which the traversal
overwrites with a boolean before the walk) recursively satisfies the same. -/
def visitedTrainingOK (o : Obj) : Bool :=
  match o.findIdx? (fun s => s.1 == "training") with
  | none => false
  | some i => visitedTrainingOKSlots o i 0
termination_by (sizeOf o, 1)
decreasing_by
  exact Prod.Lex.right _ (by omega)

/-- Slot walk of visitedTrainingOK: i the skipped "training" index, j the
current position. -/
def visitedTrainingOKSlots (slots : List (String × IVal)) (i j : Nat) : Bool :=
  match slots with
  | [] => true
  | (_, v) :: rest =>
    (if j = i then true
     else
       match v with
       | .vObj s => visitedTrainingOK s
       | _ => true) && visitedTrainingOKSlots rest i (j + 1)
termination_by (sizeOf slots, 0)
decreasing_by
  all_goals apply Prod.Lex.left
  all_goals simp
  all_goals omega

end

/-- Specification-side enumeration, following the spec's words for
named_parameters: the dotted hierarchical path and tensor of every
gradient-tracking tensor-valued slot, in depth-first slot order (root-level
slots under their bare attribute name, nested ones as parent.child.leaf). -/
def specGradParamPaths (obj : Obj) (parent : String) : List (String × Tensor) :=
  match obj with
  | [] => []
  | (nm, .vTensor tid rg) :: rest =>
    (if rg then [(dottedName parent nm, (tid, rg))] else []) ++
      specGradParamPaths rest parent
  | (nm, .vObj s) :: rest =>
    specGradParamPaths s (dottedName parent nm) ++ specGradParamPaths rest parent
  | _ :: rest => specGradParamPaths rest parent
termination_by sizeOf obj
decreasing_by
  all_goals simp
  all_goals omega

/-! Concrete fixtures used by witnesses and counterexamples. -/

/-- Sample symbolication table with constant entries. -/
def sampleDebugTable : DebugTable :=
  ⟨fun _ _ => "SRCS", fun _ _ => "SRC1", fun _ _ => "HIER"⟩

/-- Sample function that returns its stack unchanged. -/
def sampleFunction : Function :=
  { name := "forward", qualname := "M.forward", exceptionDebugHandle := 7,
    debugHandle := fun _ => 0, body := fun s => .ok s }

/-- Sample module owning sampleFunction. -/
def sampleModule : Module :=
  { object := [("training", .vB false)], typeName := "M",
    cu := ⟨[sampleFunction]⟩, metadata := [], debugTable := sampleDebugTable }

/-- Sample bound method. -/
def sampleMethod : Method :=
  ⟨sampleModule, sampleFunction⟩

/-- Configuration with an observer and without symbolication support. -/
def obsCfg : RunCfg := ⟨true, false⟩

/-- Configuration with an observer and with symbolication support. -/
def symCfg : RunCfg := ⟨true, true⟩

/-- Sample backend-runtime exception. -/
def sampleBackendExc : BackendRuntimeException := ⟨"boom", [], [3]⟩

/-- Sample function raising a backend-runtime exception, leaving the stack
as handed over. -/
def sampleFunctionBackendRaise : Function :=
  { name := "forward", qualname := "M.forward", exceptionDebugHandle := 7,
    debugHandle := fun _ => 0, body := fun s => .backendExc sampleBackendExc s }

/-- Sample bound method raising a backend-runtime exception. -/
def sampleMethodBackendRaise : Method :=
  ⟨sampleModule, sampleFunctionBackendRaise⟩

/-- Sample function leaving an empty stack. -/
def sampleFunctionEmpties : Function :=
  { name := "forward", qualname := "M.forward", exceptionDebugHandle := 7,
    debugHandle := fun _ => 0, body := fun _ => .ok [] }

/-- Sample bound method leaving an empty stack. -/
def sampleMethodEmpties : Method :=
  ⟨sampleModule, sampleFunctionEmpties⟩

/-- Second sample function, qualified name M.b. -/
def sampleFnB : Function :=
  { name := "b", qualname := "M.b", exceptionDebugHandle := 1,
    debugHandle := fun _ => 0, body := fun s => .ok s }

/-- Third sample function, qualified name M.c. -/
def sampleFnC : Function :=
  { name := "c", qualname := "M.c", exceptionDebugHandle := 2,
    debugHandle := fun _ => 0, body := fun s => .ok s }

/-- Sample registration sequence. -/
def sampleFns : List Function := [sampleFunction, sampleFnB, sampleFnC]

/-- Module owning only non-forward functions. -/
def sampleModuleNoForward : Module :=
  { object := [("training", .vB false)], typeName := "M",
    cu := ⟨[sampleFnB]⟩, metadata := [], debugTable := sampleDebugTable }

/-- Module whose root object lacks the "training" attribute. -/
def sampleModuleNoTraining : Module :=
  { object := [("x", .vOther)], typeName := "M", cu := ⟨[]⟩,
    metadata := [], debugTable := sampleDebugTable }

/-- Module with a two-level object tree carrying "training" everywhere. -/
def sampleModuleTrainable : Module :=
  { object := [("training", .vB false),
      ("child", .vObj [("training", .vB false), ("w", .vTensor 1 true)])],
    typeName := "M", cu := ⟨[]⟩, metadata := [], debugTable := sampleDebugTable }

/-- Module with a two-level object tree: a root-level tensor that does not
track gradients, and a child object whose "leaf" tensor does. -/
def sampleModuleTwoLevel : Module :=
  { object := [("root_t", .vTensor 1 false),
      ("child", .vObj [("leaf", .vTensor 7 true), ("flagB", .vB true)])],
    typeName := "M", cu := ⟨[]⟩, metadata := [], debugTable := sampleDebugTable }

/-- C1: for every invocation of Method::run with an observer installed,
exactly one of the observer notifications onExitRunMethod or
onFailRunMethod fires, never both and never neither, whichever of the
three outcomes execution takes (normal return, backend-runtime exception,
generic framework error); the enter notification precedes execution. -/
theorem run_fires_exactly_one_of_exit_or_fail (cfg : RunCfg) (meth : Method)
    (key : Nat) (stack : List IVal) (hobs : cfg.observerPresent = true) :
    ((meth.run cfg key stack).trace.countP
        (fun e => e.isExitNotify || e.isFailNotify)) = 1 ∧
    (∃ i j, (meth.run cfg key stack).trace.findIdx? Event.isEnter = some i ∧
      (meth.run cfg key stack).trace.findIdx? Event.isExecStart = some j ∧
      i < j) := by
  refine ⟨?_, 0, 2, ?_, ?_, by omega⟩ <;>
    cases hres : meth.function.body (meth.owner.selfObj :: stack) <;>
      simp [Method.run, hres, hobs, failureGuardEvents, Event.isExitNotify,
        Event.isFailNotify, Event.isEnter, Event.isExecStart,
        Event.isDebugInstall, List.findIdx?_cons]

/-- Witness for C1 at a concrete successful invocation. -/
theorem run_fires_exactly_one_of_exit_or_fail_witness :
    ((sampleMethod.run obsCfg 0 []).trace.countP
        (fun e => e.isExitNotify || e.isFailNotify)) = 1 ∧
    (∃ i j, (sampleMethod.run obsCfg 0 []).trace.findIdx? Event.isEnter = some i ∧
      (sampleMethod.run obsCfg 0 []).trace.findIdx? Event.isExecStart = some j ∧
      i < j) :=
  run_fires_exactly_one_of_exit_or_fail obsCfg sampleMethod 0 [] rfl

/-- C2: when Function::run raises inside Method::run, the invocation layer
re-raises the same exception with its type and message preserved, only
annotated: with symbolication compiled in, a backend-runtime exception
first has this function's exception debug handle pushed onto its handle
list and the symbolication of all accumulated handles attached as
additional context, while a generic framework error has the symbolication
of this function's single handle attached; without symbolication the
exception is rethrown untouched. No error is swallowed or replaced. -/
theorem run_rethrows_same_exception_augmented (cfg : RunCfg) (meth : Method)
    (key : Nat) (stack : List IVal) :
    (∀ e s2, meth.function.body (meth.owner.selfObj :: stack) = .backendExc e s2 →
      (meth.run cfg key stack).result =
        .error (.backend (backendAugment cfg.symbolicate meth e)) ∧
      (backendAugment cfg.symbolicate meth e).msg = e.msg ∧
      (cfg.symbolicate = true →
        (backendAugment cfg.symbolicate meth e).debugHandles =
          e.debugHandles ++ [meth.function.exceptionDebugHandle] ∧
        (backendAugment cfg.symbolicate meth e).context =
          e.context ++ [meth.owner.debugTable.sourceDebugStringMulti
            (e.debugHandles ++ [meth.function.exceptionDebugHandle])
            meth.owner.typeName]) ∧
      (cfg.symbolicate = false → backendAugment cfg.symbolicate meth e = e)) ∧
    (∀ e s2, meth.function.body (meth.owner.selfObj :: stack) = .c10Error e s2 →
      (meth.run cfg key stack).result =
        .error (.c10 (c10Augment cfg.symbolicate meth e)) ∧
      (c10Augment cfg.symbolicate meth e).msg = e.msg ∧
      (cfg.symbolicate = true →
        (c10Augment cfg.symbolicate meth e).context =
          e.context ++ [meth.owner.debugTable.sourceDebugString
            meth.function.exceptionDebugHandle meth.owner.typeName]) ∧
      (cfg.symbolicate = false → c10Augment cfg.symbolicate meth e = e)) := by
  constructor
  · intro e s2 h
    refine ⟨by simp [Method.run, h], ?_, ?_, ?_⟩
    · cases hs : cfg.symbolicate <;> simp [backendAugment, hs]
    · intro hs; simp [backendAugment, hs]
    · intro hs; simp [backendAugment, hs]
  · intro e s2 h
    refine ⟨by simp [Method.run, h], ?_, ?_, ?_⟩
    · cases hs : cfg.symbolicate <;> simp [c10Augment, hs]
    · intro hs; simp [c10Augment, hs]
    · intro hs; simp [c10Augment, hs]

/-- Witness for C2 at a concrete backend-raising invocation with
symbolication compiled in. -/
theorem run_rethrows_same_exception_augmented_witness :
    (sampleMethodBackendRaise.run symCfg 0 []).result =
      .error (.backend (backendAugment true sampleMethodBackendRaise sampleBackendExc)) ∧
    (backendAugment true sampleMethodBackendRaise sampleBackendExc).msg =
      sampleBackendExc.msg ∧
    (backendAugment true sampleMethodBackendRaise sampleBackendExc).debugHandles =
      sampleBackendExc.debugHandles ++
        [sampleMethodBackendRaise.function.exceptionDebugHandle] ∧
    (backendAugment true sampleMethodBackendRaise sampleBackendExc).context =
      sampleBackendExc.context ++
        [sampleMethodBackendRaise.owner.debugTable.sourceDebugStringMulti
          (sampleBackendExc.debugHandles ++
            [sampleMethodBackendRaise.function.exceptionDebugHandle])
          sampleMethodBackendRaise.owner.typeName] := by
  have h := (run_rethrows_same_exception_augmented symCfg sampleMethodBackendRaise
    0 []).1 sampleBackendExc (sampleModule.selfObj :: []) rfl
  exact ⟨h.1, h.2.1, (h.2.2.1 rfl).1, (h.2.2.1 rfl).2⟩

/-- C4: Method::operator() runs the instrumented protocol via run and, when
run returns normally, yields exactly the first stack slot; a Function that
leaves the stack empty trips the fatal (non-recoverable) assertion, not a
catchable error. -/
theorem operator_call_returns_first_stack_slot (cfg : RunCfg) (meth : Method)
    (key : Nat) (stack : List IVal)
    (h : (meth.run cfg key stack).result = .ok ()) :
    meth.call cfg key stack =
      (match (meth.run cfg key stack).stack with
       | [] => .error (.fatalAssert "stack is not empty INTERNAL ASSERT FAILED")
       | v :: _ => .ok v) := by
  simp only [Method.call, h]

/-- Witness for C4: a Function that leaves the stack empty makes the call
trip the fatal assertion. -/
theorem operator_call_returns_first_stack_slot_witness :
    sampleMethodEmpties.call obsCfg 0 [] =
      .error (.fatalAssert "stack is not empty INTERNAL ASSERT FAILED") :=
  operator_call_returns_first_stack_slot obsCfg sampleMethodEmpties 0 [] rfl

/-- C3 counterexample: at a concrete invocation with an observer present,
the observer enter notification occupies trace position 0 and the
DebugInfoGuard installation trace position 1, so the debug-info context is
installed strictly AFTER the enter notification fires — refuting the
claimed order (debug scope before enter, spec steps 2 then 3). -/
theorem debug_scope_installed_after_enter_cex :
    (sampleMethod.run obsCfg 0 []).trace.findIdx? Event.isEnter = some 0 ∧
    (sampleMethod.run obsCfg 0 []).trace.findIdx? Event.isDebugInstall = some 1 ∧
    (0 : Nat) < 1 :=
  ⟨rfl, rfl, by omega⟩

/-- C3 amended: the debug-info context is installed after the observer
enter notification but before execution begins; it is installed and
released exactly once, remains installed for the entire call including the
failure guard (whose symbolication and fail notification precede the
release), and is released as the last step of every exit path: normal
return, backend-runtime exception and generic framework error. -/
theorem debug_scope_brackets_whole_call (cfg : RunCfg) (meth : Method)
    (key : Nat) (stack : List IVal) :
    ((meth.run cfg key stack).trace.countP Event.isDebugInstall = 1) ∧
    ((meth.run cfg key stack).trace.countP Event.isDebugRelease = 1) ∧
    ((meth.run cfg key stack).trace.getLast? = some .debugRelease) ∧
    (∃ i j, (meth.run cfg key stack).trace.findIdx? Event.isDebugInstall = some i ∧
      (meth.run cfg key stack).trace.findIdx? Event.isExecStart = some j ∧
      i < j) ∧
    (cfg.observerPresent = true →
      ∃ i j, (meth.run cfg key stack).trace.findIdx? Event.isEnter = some i ∧
        (meth.run cfg key stack).trace.findIdx? Event.isDebugInstall = some j ∧
        i < j) := by
  cases hres : meth.function.body (meth.owner.selfObj :: stack) <;>
    cases hobs : cfg.observerPresent <;>
      simp [Method.run, hres, hobs, failureGuardEvents, Event.isEnter,
        Event.isDebugInstall, Event.isExecStart, Event.isDebugRelease,
        List.findIdx?_cons, List.getLast?]

/-- Witness for the amended C3 at a concrete invocation with an observer. -/
theorem debug_scope_brackets_whole_call_witness :
    ((sampleMethod.run obsCfg 0 []).trace.countP Event.isDebugInstall = 1) ∧
    ((sampleMethod.run obsCfg 0 []).trace.countP Event.isDebugRelease = 1) ∧
    ((sampleMethod.run obsCfg 0 []).trace.getLast? = some .debugRelease) ∧
    (∃ i j, (sampleMethod.run obsCfg 0 []).trace.findIdx? Event.isDebugInstall = some i ∧
      (sampleMethod.run obsCfg 0 []).trace.findIdx? Event.isExecStart = some j ∧
      i < j) ∧
    (∃ i j, (sampleMethod.run obsCfg 0 []).trace.findIdx? Event.isEnter = some i ∧
      (sampleMethod.run obsCfg 0 []).trace.findIdx? Event.isDebugInstall = some j ∧
      i < j) := by
  have h := debug_scope_brackets_whole_call obsCfg sampleMethod 0 []
  exact ⟨h.1, h.2.1, h.2.2.1, h.2.2.2.1, h.2.2.2.2 rfl⟩

/-- Helper: the first find? match is the first match in list order. -/
theorem find_first_match_aux {α : Type} (p : α → Bool) :
    ∀ (l : List α) (a : α), l.find? p = some a →
      p a = true ∧ ∃ i : Nat, l[i]? = some a ∧
        ∀ (j : Nat) (b : α), j < i → l[j]? = some b → p b = false := by
  intro l
  induction l with
  | nil => intro a h; simp at h
  | cons x xs ih =>
    intro a h
    by_cases hx : p x
    · rw [List.find?_cons_of_pos _ hx] at h
      obtain rfl : x = a := by simpa using h
      exact ⟨hx, 0, by simp, by omega⟩
    · rw [List.find?_cons_of_neg _ hx] at h
      obtain ⟨hp, i, hi, hfirst⟩ := ih a h
      refine ⟨hp, i + 1, by simpa using hi, ?_⟩
      intro j b hj hjb
      cases j with
      | zero =>
        simp at hjb
        subst hjb
        simpa using hx
      | succ j1 =>
        exact hfirst j1 b (by omega) (by simpa using hjb)

/-- Helper: registering a sequence of functions appends them in order. -/
theorem register_function_foldl (fns : List Function) :
    ∀ acc : List Function,
      (fns.foldl CompilationUnit.register_function ⟨acc⟩).methods = acc ++ fns := by
  induction fns with
  | nil => intro acc; simp
  | cons f fs ih =>
    intro acc
    simpa [CompilationUnit.register_function] using ih (acc ++ [f])

/-- C7: after any sequence of register_function calls, the unit holds the
functions in registration order; find_function returns the first function
in that order whose qualified name equals the query, and none when no
registered function matches. Lookup is pure (it is a function of the unit
and returns only the found function). -/
theorem find_function_first_registered_match (fns : List Function) (qn : String) :
    ((fns.foldl CompilationUnit.register_function ⟨[]⟩).methods = fns) ∧
    (∀ f, CompilationUnit.find_function ⟨fns⟩ qn = some f →
      f.qualname = qn ∧ ∃ i : Nat, fns[i]? = some f ∧
        ∀ (j : Nat) (g : Function), j < i → fns[j]? = some g → g.qualname ≠ qn) ∧
    (CompilationUnit.find_function ⟨fns⟩ qn = none ↔
      ∀ f ∈ fns, f.qualname ≠ qn) := by
  refine ⟨by simpa using register_function_foldl fns [], ?_, ?_⟩
  · intro f h
    rw [CompilationUnit.find_function] at h
    obtain ⟨hp, i, hi, hfirst⟩ :=
      find_first_match_aux (fun fn => fn.qualname == qn) fns f h
    refine ⟨by simpa using hp, i, hi, ?_⟩
    intro j g hj hjg
    have := hfirst j g hj hjg
    simpa using this
  · unfold CompilationUnit.find_function
    rw [List.find?_eq_none]
    constructor
    · intro h f hf
      simpa using h f hf
    · intro h f hf
      simpa using h f hf

/-- Witness for C7: three registered functions with distinct qualified
names; querying one yields its first-match characterisation, and an
unregistered qualified name yields none. -/
theorem find_function_first_registered_match_witness :
    ((sampleFns.foldl CompilationUnit.register_function ⟨[]⟩).methods = sampleFns) ∧
    (sampleFnB.qualname = "M.b" ∧ ∃ i : Nat, sampleFns[i]? = some sampleFnB ∧
      ∀ (j : Nat) (g : Function), j < i → sampleFns[j]? = some g → g.qualname ≠ "M.b") ∧
    (CompilationUnit.find_function ⟨sampleFns⟩ "M.zzz" = none) := by
  refine ⟨(find_function_first_registered_match sampleFns "M.b").1,
    (find_function_first_registered_match sampleFns "M.b").2.1 sampleFnB rfl, ?_⟩
  exact (find_function_first_registered_match sampleFns "M.zzz").2.2.mpr
    (by intro f hf; fin_cases hf <;> simp [sampleFunction, sampleFnB, sampleFnC, sampleFns])

/-- C9: on a module with no method named "forward",
get_forward_method_debug_info fails for every program counter (with or
without symbolication support): the empty optional returned by the
"forward" lookup is dereferenced, which never silently proceeds to a debug
string. -/
theorem get_forward_method_debug_info_requires_forward (sym : Bool)
    (m : Module) (pc : Nat)
    (h : ∀ fn ∈ m.cu.methods, fn.name ≠ "forward") :
    Module.get_forward_method_debug_info sym m pc =
      .error (.fatalAssert "dereference of empty optional") := by
  have hfm : m.cu.methods.find? (fun fn => fn.name == "forward") = none := by
    rw [List.find?_eq_none]
    intro fn hfn
    simpa using h fn hfn
  simp [Module.get_forward_method_debug_info, Module.find_method, hfm,
    derefOptionalMethod, bind, Except.bind]

/-- Witness for C9 at a concrete module without a "forward" method. -/
theorem get_forward_method_debug_info_requires_forward_witness :
    Module.get_forward_method_debug_info true sampleModuleNoForward 5 =
      .error (.fatalAssert "dereference of empty optional") :=
  get_forward_method_debug_info_requires_forward true sampleModuleNoForward 5
    (by intro fn hfn; fin_cases hfn; simp [sampleFnB, sampleModuleNoForward])

/-- C10: when Method::run exits by exception, the caller-supplied stack is
left exactly as the interpreter left it — no unwinding step restores it;
in particular, when the interpreter raises without touching the stack it
was handed, the module root object inserted at the front as the implicit
self argument is still there, so the stack differs from its pre-call
contents. -/
theorem run_exception_leaves_stack_unrestored (cfg : RunCfg) (meth : Method)
    (key : Nat) (stack : List IVal) :
    (∀ e s2, meth.function.body (meth.owner.selfObj :: stack) = .backendExc e s2 →
      (meth.run cfg key stack).stack = s2) ∧
    (∀ e s2, meth.function.body (meth.owner.selfObj :: stack) = .c10Error e s2 →
      (meth.run cfg key stack).stack = s2) ∧
    (∀ e, meth.function.body (meth.owner.selfObj :: stack) =
        .backendExc e (meth.owner.selfObj :: stack) →
      (meth.run cfg key stack).result =
        .error (.backend (backendAugment cfg.symbolicate meth e)) ∧
      (meth.run cfg key stack).stack = meth.owner.selfObj :: stack ∧
      (meth.run cfg key stack).stack ≠ stack) := by
  refine ⟨?_, ?_, ?_⟩
  · intro e s2 h; simp [Method.run, h]
  · intro e s2 h; simp [Method.run, h]
  · intro e h
    refine ⟨by simp [Method.run, h], by simp [Method.run, h], ?_⟩
    simp only [Method.run, h]
    intro heq
    simpa using congrArg List.length heq

/-- Witness for C10 at a concrete backend-raising invocation: self is still
at the front of the stack on the exceptional exit. -/
theorem run_exception_leaves_stack_unrestored_witness :
    (sampleMethodBackendRaise.run obsCfg 0 []).result =
      .error (.backend (backendAugment false sampleMethodBackendRaise sampleBackendExc)) ∧
    (sampleMethodBackendRaise.run obsCfg 0 []).stack = sampleModule.selfObj :: [] ∧
    (sampleMethodBackendRaise.run obsCfg 0 []).stack ≠ [] :=
  (run_exception_leaves_stack_unrestored obsCfg sampleMethodBackendRaise 0 []).2.2
    sampleBackendExc rfl

/-- C6 main helper: set_train_recurse succeeds exactly on trees all of
whose visited nodes carry a "training" attribute; otherwise it fails with
the fatal assertion. -/
theorem set_train_recurse_visited : ∀ (o : Obj) (flag : Bool),
    (visitedTrainingOK o = true → ∃ out, set_train_recurse o flag = .ok out) ∧
    (visitedTrainingOK o = false →
      set_train_recurse o flag = .error (.fatalAssert "training attribute not found")) :=
  set_train_recurse.induct
    (fun o flag =>
      (visitedTrainingOK o = true → ∃ out, set_train_recurse o flag = .ok out) ∧
      (visitedTrainingOK o = false →
        set_train_recurse o flag = .error (.fatalAssert "training attribute not found")))
    (fun slots flag i j =>
      (visitedTrainingOKSlots slots i j = true →
        ∃ out, set_train_slots slots flag i j = .ok out) ∧
      (visitedTrainingOKSlots slots i j = false →
        set_train_slots slots flag i j = .error (.fatalAssert "training attribute not found")))
    (by
      intro slots flag h
      constructor
      · intro hv
        rw [visitedTrainingOK.eq_def, h] at hv
        simp at hv
      · intro _
        rw [set_train_recurse.eq_def, h])
    (by
      intro slots flag i h IH
      constructor
      · intro hv
        rw [visitedTrainingOK.eq_def, h] at hv
        obtain ⟨out, hout⟩ := IH.1 hv
        exact ⟨out, by rw [set_train_recurse.eq_def, h]; exact hout⟩
      · intro hv
        rw [visitedTrainingOK.eq_def, h] at hv
        rw [set_train_recurse.eq_def, h]
        exact IH.2 hv)
    (by
      intro flag i j
      constructor
      · intro _
        exact ⟨[], by rw [set_train_slots.eq_def]⟩
      · intro hv
        rw [visitedTrainingOKSlots.eq_def] at hv
        simp at hv)
    (by
      intro flag j nm v rest IH
      constructor
      · intro hv
        rw [visitedTrainingOKSlots.eq_def] at hv
        simp only [if_pos rfl, Bool.true_and] at hv
        obtain ⟨tl, htl⟩ := IH.1 hv
        refine ⟨(nm, IVal.vB flag) :: tl, ?_⟩
        rw [set_train_slots.eq_def]
        simp [htl, bind, Except.bind, pure, Except.pure]
      · intro hv
        rw [visitedTrainingOKSlots.eq_def] at hv
        simp only [if_pos rfl, Bool.true_and] at hv
        rw [set_train_slots.eq_def]
        simp [IH.2 hv, bind, Except.bind, pure, Except.pure])
    (by
      intro flag i j nm rest hji s IHrest IHs
      constructor
      · intro hv
        rw [visitedTrainingOKSlots.eq_def] at hv
        simp only [if_neg hji, Bool.and_eq_true] at hv
        obtain ⟨s2, hs2⟩ := IHs.1 hv.1
        obtain ⟨tl, htl⟩ := IHrest.1 hv.2
        refine ⟨(nm, IVal.vObj s2) :: tl, ?_⟩
        rw [set_train_slots.eq_def]
        simp [if_neg hji, hs2, htl, bind, Except.bind, pure, Except.pure]
      · intro hv
        rw [visitedTrainingOKSlots.eq_def] at hv
        simp only [if_neg hji, Bool.and_eq_false_iff] at hv
        rcases hv with hv | hv
        · rw [set_train_slots.eq_def]
          simp [if_neg hji, IHs.2 hv, bind, Except.bind, pure, Except.pure]
        · by_cases hs : visitedTrainingOK s = true
          · obtain ⟨s2, hs2⟩ := IHs.1 hs
            rw [set_train_slots.eq_def]
            simp [if_neg hji, hs2, IHrest.2 hv, bind, Except.bind, pure,
              Except.pure]
          · rw [set_train_slots.eq_def]
            simp [if_neg hji, IHs.2 (by simpa using hs), bind, Except.bind,
              pure, Except.pure])
    (by
      intro flag i j nm rest hji x hx IH
      cases x with
      | vObj s => exact (hx s rfl).elim
      | vB b =>
        constructor
        · intro hv
          rw [visitedTrainingOKSlots.eq_def] at hv
          simp only [if_neg hji, Bool.true_and] at hv
          obtain ⟨tl, htl⟩ := IH.1 hv
          refine ⟨(nm, IVal.vB b) :: tl, ?_⟩
          rw [set_train_slots.eq_def]
          simp [if_neg hji, htl, bind, Except.bind, pure, Except.pure]
        · intro hv
          rw [visitedTrainingOKSlots.eq_def] at hv
          simp only [if_neg hji, Bool.true_and] at hv
          rw [set_train_slots.eq_def]
          simp [if_neg hji, IH.2 hv, bind, Except.bind, pure, Except.pure]
      | vTensor t r =>
        constructor
        · intro hv
          rw [visitedTrainingOKSlots.eq_def] at hv
          simp only [if_neg hji, Bool.true_and] at hv
          obtain ⟨tl, htl⟩ := IH.1 hv
          refine ⟨(nm, IVal.vTensor t r) :: tl, ?_⟩
          rw [set_train_slots.eq_def]
          simp [if_neg hji, htl, bind, Except.bind, pure, Except.pure]
        · intro hv
          rw [visitedTrainingOKSlots.eq_def] at hv
          simp only [if_neg hji, Bool.true_and] at hv
          rw [set_train_slots.eq_def]
          simp [if_neg hji, IH.2 hv, bind, Except.bind, pure, Except.pure]
      | vOther =>
        constructor
        · intro hv
          rw [visitedTrainingOKSlots.eq_def] at hv
          simp only [if_neg hji, Bool.true_and] at hv
          obtain ⟨tl, htl⟩ := IH.1 hv
          refine ⟨(nm, IVal.vOther) :: tl, ?_⟩
          rw [set_train_slots.eq_def]
          simp [if_neg hji, htl, bind, Except.bind, pure, Except.pure]
        · intro hv
          rw [visitedTrainingOKSlots.eq_def] at hv
          simp only [if_neg hji, Bool.true_and] at hv
          rw [set_train_slots.eq_def]
          simp [if_neg hji, IH.2 hv, bind, Except.bind, pure, Except.pure])

/-- C6: Module::train on an object tree in which some visited node lacks a
"training" attribute fails with the fatal invariant-violation assertion
(MobileErr.fatalAssert, not a catchable exception), whereas
Module::is_training tolerates an absent "training" attribute on the root
by returning true. -/
theorem train_missing_training_fatal_is_training_tolerant :
    (∀ (m : Module) (flag : Bool), visitedTrainingOK m.object = false →
      m.train flag = .error (.fatalAssert "training attribute not found")) ∧
    (∀ m : Module, findAttributeSlot m.object "training" = none →
      m.is_training = .ok true) := by
  constructor
  · intro m flag h
    have herr := (set_train_recurse_visited m.object flag).2 h
    simp [Module.train, herr, Except.map]
  · intro m h
    simp [Module.is_training, h]

/-- Witness for C6 at a concrete module without a "training" attribute. -/
theorem train_missing_training_fatal_is_training_tolerant_witness :
    sampleModuleNoTraining.train true =
      .error (.fatalAssert "training attribute not found") ∧
    sampleModuleNoTraining.is_training = .ok true := by
  refine ⟨train_missing_training_fatal_is_training_tolerant.1
    sampleModuleNoTraining true ?_,
    train_missing_training_fatal_is_training_tolerant.2
    sampleModuleNoTraining ?_⟩
  · rw [visitedTrainingOK.eq_def]
    rfl
  · rfl

/-- Helper: a found index points at an element satisfying the predicate. -/
theorem findIdx?_points_at {α : Type} (p : α → Bool) (l : List α) (i : Nat)
    (h : l.findIdx? p = some i) : ∃ x, l[i]? = some x ∧ p x = true := by
  rw [List.findIdx?_eq_some_iff_findIdx_eq] at h
  obtain ⟨hlt, hidx⟩ := h
  refine ⟨l.get ⟨i, hlt⟩, by simp, ?_⟩
  subst hidx
  simpa [List.get_eq_getElem] using @List.findIdx_getElem _ p l hlt

/-- Helper: findIdx? over a name predicate depends only on the names. -/
theorem findIdx?_by_names (name : String) (l l2 : List (String × IVal))
    (h : l.map Prod.fst = l2.map Prod.fst) :
    l.findIdx? (fun s => s.1 == name) = l2.findIdx? (fun s => s.1 == name) := by
  have h1 : List.findIdx? (fun s : String × IVal => s.1 == name) l
      = List.findIdx? (fun a : String => a == name) (l.map Prod.fst) :=
    (@List.findIdx?_map (String × IVal) String (fun a : String => a == name)
      Prod.fst l).symm
  have h2 : List.findIdx? (fun s : String × IVal => s.1 == name) l2
      = List.findIdx? (fun a : String => a == name) (l2.map Prod.fst) :=
    (@List.findIdx?_map (String × IVal) String (fun a : String => a == name)
      Prod.fst l2).symm
  rw [h1, h2, h]

/-- Helper: getSlot through the optional indexing operator. -/
theorem getSlot_eq_getElem? (o : Obj) (i : Nat) :
    getSlot o i = ((o[i]?).getD ("", IVal.vOther)).2 := by
  simp [getSlot, List.getD_eq_getElem?_getD]

/-- C5 main helper: on a tree whose every node carries a "training"
attribute, set_train_recurse succeeds, preserves all attribute names, and
leaves a tree whose every training slot holds the given flag. -/
theorem set_train_recurse_sets_all : ∀ (o : Obj) (flag : Bool),
    hasTrainingAll o = true →
      ∃ out, set_train_recurse o flag = .ok out ∧
        out.map Prod.fst = o.map Prod.fst ∧
        trainingSetAll out flag = true :=
  set_train_recurse.induct
    (fun o flag =>
      hasTrainingAll o = true →
        ∃ out, set_train_recurse o flag = .ok out ∧
          out.map Prod.fst = o.map Prod.fst ∧
          trainingSetAll out flag = true)
    (fun slots flag i j =>
      hasTrainingAllSlots slots = true →
        ∃ out, set_train_slots slots flag i j = .ok out ∧
          out.map Prod.fst = slots.map Prod.fst ∧
          trainingSetAllSlots out flag = true ∧
          (∀ k : Nat, j + k = i → ∀ (nm : String) (v : IVal),
            slots[k]? = some (nm, v) → out[k]? = some (nm, IVal.vB flag)))
    (by
      intro slots flag hcase h
      rw [hasTrainingAll.eq_def, hcase] at h
      simp at h)
    (by
      intro slots flag i hcase IH h
      rw [hasTrainingAll.eq_def, hcase] at h
      simp only [Option.isSome_some, Bool.true_and] at h
      obtain ⟨out, hok, hnames, hsetslots, hpos⟩ := IH h
      refine ⟨out, ?_, hnames, ?_⟩
      · rw [set_train_recurse.eq_def, hcase]
        exact hok
      · have hfi : out.findIdx? (fun s => s.1 == "training") = some i :=
          (findIdx?_by_names "training" out slots hnames).trans hcase
        obtain ⟨x, hx, hpx⟩ := findIdx?_points_at _ slots i hcase
        obtain ⟨nm, v⟩ := x
        have houti : out[i]? = some (nm, IVal.vB flag) :=
          hpos i (by omega) nm v hx
        have hgs : getSlot out i = IVal.vB flag := by
          rw [getSlot_eq_getElem?, houti]
          rfl
        rw [trainingSetAll.eq_def, hfi]
        simp [hgs, hsetslots])
    (by
      intro flag i j _
      refine ⟨[], by rw [set_train_slots.eq_def], rfl, ?_, ?_⟩
      · rw [trainingSetAllSlots.eq_def]
      · intro k _ nm v hslot
        simp at hslot)
    (by
      intro flag j nm v rest IH h
      have hrest : hasTrainingAllSlots rest = true := by
        rw [hasTrainingAllSlots.eq_def] at h
        cases v with
        | vObj s =>
          simp only [Bool.and_eq_true] at h
          exact h.2
        | vB b => exact h
        | vTensor t r => exact h
        | vOther => exact h
      obtain ⟨tl, htl, hnames, hsetslots, hpos⟩ := IH hrest
      refine ⟨(nm, IVal.vB flag) :: tl, ?_, by simp [hnames], ?_, ?_⟩
      · rw [set_train_slots.eq_def]
        simp [htl, bind, Except.bind, pure, Except.pure]
      · rw [trainingSetAllSlots.eq_def]
        exact hsetslots
      · intro k hk nm2 v2 hslot
        have hk0 : k = 0 := by omega
        subst hk0
        simp at hslot ⊢
        exact hslot.1)
    (by
      intro flag i j nm rest hji s IHrest IHs h
      rw [hasTrainingAllSlots.eq_def] at h
      simp only [Bool.and_eq_true] at h
      obtain ⟨s2, hs2ok, hs2names, hs2setall⟩ := IHs h.1
      obtain ⟨tl, htl, hnames, hsetslots, hpos⟩ := IHrest h.2
      refine ⟨(nm, IVal.vObj s2) :: tl, ?_, by simp [hnames], ?_, ?_⟩
      · rw [set_train_slots.eq_def]
        simp [if_neg hji, hs2ok, htl, bind, Except.bind, pure, Except.pure]
      · rw [trainingSetAllSlots.eq_def]
        simp [hs2setall, hsetslots]
      · intro k hk nm2 v2 hslot
        cases k with
        | zero => omega
        | succ k1 =>
          have : (j + 1) + k1 = i := by omega
          have hout := hpos k1 this nm2 v2 (by simpa using hslot)
          simpa using hout)
    (by
      intro flag i j nm rest hji x hx IH h
      have hrest : hasTrainingAllSlots rest = true := by
        rw [hasTrainingAllSlots.eq_def] at h
        cases x with
        | vObj s => exact (hx s rfl).elim
        | vB b => exact h
        | vTensor t r => exact h
        | vOther => exact h
      obtain ⟨tl, htl, hnames, hsetslots, hpos⟩ := IH hrest
      have hwalk : set_train_slots ((nm, x) :: rest) flag i j = .ok ((nm, x) :: tl) := by
        rw [set_train_slots.eq_def]
        cases x with
        | vObj s => exact (hx s rfl).elim
        | vB b => simp [if_neg hji, htl, bind, Except.bind, pure, Except.pure]
        | vTensor t r => simp [if_neg hji, htl, bind, Except.bind, pure, Except.pure]
        | vOther => simp [if_neg hji, htl, bind, Except.bind, pure, Except.pure]
      have hsa : trainingSetAllSlots ((nm, x) :: tl) flag = true := by
        rw [trainingSetAllSlots.eq_def]
        cases x with
        | vObj s => exact (hx s rfl).elim
        | vB b => exact hsetslots
        | vTensor t r => exact hsetslots
        | vOther => exact hsetslots
      refine ⟨(nm, x) :: tl, hwalk, by simp [hnames], hsa, ?_⟩
      intro k hk nm2 v2 hslot
      cases k with
      | zero => omega
      | succ k1 =>
        have : (j + 1) + k1 = i := by omega
        have hout := hpos k1 this nm2 v2 (by simpa using hslot)
        simpa using hout)

/-- Helper: a tree whose every training slot holds true reports
is_training = true. -/
theorem is_training_of_trainingSetAll (m : Module)
    (h : trainingSetAll m.object true = true) : m.is_training = .ok true := by
  rw [trainingSetAll.eq_def, Bool.and_eq_true] at h
  obtain ⟨h1, _⟩ := h
  cases hidx : m.object.findIdx? (fun s => s.1 == "training") with
  | none =>
    rw [hidx] at h1
    simp at h1
  | some i =>
    rw [hidx] at h1
    simp only [Option.some.injEq] at h1
    simp at h1
    cases hval : getSlot m.object i with
    | vB b =>
      rw [hval] at h1
      simp at h1
      subst h1
      simp [Module.is_training, findAttributeSlot, hidx, hval, IVal.toBool]
    | vObj s =>
      rw [hval] at h1
      simp at h1
    | vTensor t r =>
      rw [hval] at h1
      simp at h1
    | vOther =>
      rw [hval] at h1
      simp at h1

/-- C5: on a module whose object tree carries the "training" attribute on
every node (the tree structure is cycle-free by construction), train(true)
succeeds, sets the "training" slot of the root and of every transitively
reachable object-valued slot to true, and a subsequent is_training()
returns true. -/
theorem train_true_sets_all_training (m : Module)
    (h : hasTrainingAll m.object = true) :
    ∃ m2, m.train true = .ok m2 ∧ trainingSetAll m2.object true = true ∧
      m2.is_training = .ok true := by
  obtain ⟨out, hok, hnames, hsetall⟩ := set_train_recurse_sets_all m.object true h
  refine ⟨{ m with object := out }, ?_, hsetall, ?_⟩
  · simp [Module.train, hok, Except.map]
  · exact is_training_of_trainingSetAll { m with object := out } hsetall

/-- Witness for C5 at a concrete two-level module. -/
theorem train_true_sets_all_training_witness :
    ∃ m2, sampleModuleTrainable.train true = .ok m2 ∧
      trainingSetAll m2.object true = true ∧
      m2.is_training = .ok true :=
  train_true_sets_all_training sampleModuleTrainable
    (by simp [sampleModuleTrainable, hasTrainingAll, hasTrainingAllSlots])

/-- Helper: lookup after insert-or-assign of the modelled std::map. -/
theorem lookup_mapInsert (k : String) (v : Tensor) (x : String) :
    ∀ m : List (String × Tensor),
      (mapInsert m k v).lookup x = if x == k then some v else m.lookup x := by
  intro m
  induction m with
  | nil =>
    by_cases hx : x == k <;> simp [mapInsert, List.lookup, hx]
  | cons p rest ih =>
    obtain ⟨k1, v1⟩ := p
    by_cases h1 : k1 == k
    · have hk1 : k1 = k := by simpa using h1
      subst hk1
      by_cases hx : x == k1 <;> simp [mapInsert, List.lookup, hx]
    · by_cases hx : x == k1
      · have hxk : x = k1 := by simpa using hx
        subst hxk
        have hxk2 : (x == k) = false := by simpa using h1
        simp [mapInsert, h1, List.lookup, hxk2]
      · simp [mapInsert, h1, List.lookup, hx, ih]

/-- Helper: the named-parameter walk folds its path enumeration into the
accumulator one insert-or-assign at a time. -/
theorem slot_named_params_recurse_eq_foldl (obj : Obj)
    (params : List (String × Tensor)) (parent : String) :
    slot_named_params_recurse obj params parent =
      (specGradParamPaths obj parent).foldl
        (fun acc p => mapInsert acc p.1 p.2) params := by
  induction obj, params, parent using slot_named_params_recurse.induct with
  | case1 params parent =>
    simp [slot_named_params_recurse, specGradParamPaths]
  | case2 params parent nm tid rg rest ih =>
    cases rg <;>
      simp_all [slot_named_params_recurse, specGradParamPaths, List.foldl_append]
  | case3 params parent nm s rest ih1 ih2 =>
    simp_all [slot_named_params_recurse, specGradParamPaths, List.foldl_append]
  | case4 params parent head rest hnt hno ih =>
    obtain ⟨nm, v⟩ := head
    cases v with
    | vTensor tid rg => exact (hnt nm tid rg rfl).elim
    | vObj s => exact (hno nm s rfl).elim
    | vB b =>
      simp_all [slot_named_params_recurse, specGradParamPaths]
    | vOther =>
      simp_all [slot_named_params_recurse, specGradParamPaths]

/-- Helper: looking up a key after folding insert-or-assigns over a pair
list finds the last inserted value for that key, else falls back to the
initial map. -/
theorem lookup_foldl_mapInsert (x : String) :
    ∀ (ps : List (String × Tensor)) (init : List (String × Tensor)),
      (ps.foldl (fun acc p => mapInsert acc p.1 p.2) init).lookup x =
        (ps.reverse.lookup x).or (init.lookup x) := by
  intro ps
  induction ps with
  | nil => intro init; simp
  | cons p ps1 ih =>
    intro init
    obtain ⟨k, v⟩ := p
    rw [List.foldl_cons, ih, List.reverse_cons, List.lookup_append]
    by_cases hx : x == k
    · have hxk : x = k := by simpa using hx
      subst hxk
      cases hrev : ps1.reverse.lookup x <;>
        simp [lookup_mapInsert, List.lookup, Option.or]
    · cases hrev : ps1.reverse.lookup x <;>
        simp [lookup_mapInsert, List.lookup, hx, Option.or]

/-- C8: named_parameters contains exactly the gradient-tracking
tensor-valued slots, each under its dotted hierarchical path: looking up
any key in the returned mapping agrees with the specification-side
enumeration of (dotted path, tensor) pairs of gradient-tracking tensor
slots collected depth-first (with insert-or-assign, the last write for a
key wins, mirrored by looking the enumeration up from the rear); in
particular, on a two-level tree where only the leaf tensor tracks
gradients the result is the one-entry mapping with key "child.leaf". -/
theorem named_parameters_exactly_grad_tensor_paths :
    (∀ (m : Module) (k : String),
      (m.named_parameters).lookup k =
        (specGradParamPaths m.object "").reverse.lookup k) ∧
    sampleModuleTwoLevel.named_parameters = [("child.leaf", (7, true))] := by
  constructor
  · intro m k
    rw [Module.named_parameters, slot_named_params_recurse_eq_foldl,
      lookup_foldl_mapInsert]
    simp [List.lookup]
  · simp [Module.named_parameters, slot_named_params_recurse, mapInsert,
      dottedName, sampleModuleTwoLevel]
    decide

end MobileModule
